import Mathlib

/-!
Verification development for the poker range-notation engine of the
repository (src/services/rangeEngine.js, which contains two independent
implementations of the engine separated by a document marker, and
src/services/RangeFormatConverter.js).

JavaScript strings are embedded as `List Char`; JS numbers that arise in
this code (hand weights, parsed from short decimal numerals) are embedded
as exact decimal fractions `JSNum` (an integer numerator over a
power-of-ten denominator, compared numerically wherever the code compares
numbers).  Floating-point rounding, `Infinity` and `NaN` literals are
outside the scope of this embedding: every numeral exercised by the
theorems below is an exact small decimal, where IEEE-754 doubles and exact
fractions agree.  `NaN` results of a failed `parseFloat` are embedded as
`Option.none`.  `console.log` calls in the source are pure tracing and are
dropped.
-/

/-- JS strings are lists of characters. -/
abbrev Str := List Char

/-- Shorthand to write a concrete JS string. -/
def str (s : String) : Str := s.data

/-- Whitespace as JS `trim` sees it (the code only ever meets ASCII). -/
def isWs (c : Char) : Bool := c = ' ' || c = '\t' || c = '\n' || c = '\r'

/-- JS `s.trim()`. -/
def trimC (s : Str) : Str :=
  ((s.dropWhile isWs).reverse.dropWhile isWs).reverse

/-- JS `s.split(sep)` for a one-character separator: always returns at least
one (possibly empty) piece. -/
def splitOnC (sep : Char) : Str → List Str
  | [] => [[]]
  | c :: rest =>
    let r := splitOnC sep rest
    if c = sep then [] :: r else (c :: r.headD []) :: r.tail

/-- JS `array.join(sep)`. -/
def joinSep (sep : Str) : List Str → Str
  | [] => []
  | [x] => x
  | x :: rest => x ++ sep ++ joinSep sep rest

/-- JS `s.includes(c)` for a one-character needle. -/
def hasC (c : Char) : Str → Bool
  | [] => false
  | a :: as => a = c || hasC c as

/-- JS `s[i]`: `undefined` out of range. -/
def nth : Str → Nat → Option Char
  | [], _ => none
  | a :: _, 0 => some a
  | _ :: as, n + 1 => nth as n

/-- JS `s[i]` in positions the source has already guarded to be in range
(reading out of range would make the original code throw on the very next
method call, a path no theorem below exercises). -/
def getC (s : Str) (i : Nat) : Char := (nth s i).getD ' '

/-- JS `s.endsWith(t)` for a one-character `t`. -/
def strEndsWith (s : Str) (c : Char) : Bool := s.getLast? = some c

/-- JS `list.indexOf(c)`: `-1` when absent. -/
def indexOfAux (l : List Char) (c : Char) : Int :=
  match l with
  | [] => -1
  | a :: as => if a = c then 0 else
      let r := indexOfAux as c
      if r = -1 then -1 else r + 1

/-- JS `c.toUpperCase()` for one character. -/
def jsToUpper (c : Char) : Char :=
  if 'a' ≤ c ∧ c ≤ 'z' then Char.ofNat (c.toNat - 32) else c

/-- JS `c.toLowerCase()` for one character. -/
def jsToLower (c : Char) : Char :=
  if 'A' ≤ c ∧ c ≤ 'Z' then Char.ofNat (c.toNat + 32) else c

/-- The ascending integer list `lo, lo+1, …, hi` (a JS
`for (i = lo; i <= hi; i++)` loop), empty when `hi < lo`. -/
def intRangeAsc (lo hi : Int) : List Int :=
  (List.range (hi + 1 - lo).toNat).map fun k => lo + (k : Int)

/-- The ascending natural list `lo, …, hi-1` (a JS
`for (i = lo; i < hi; i++)` loop). -/
def natRange (lo hi : Nat) : List Nat :=
  (List.range (hi - lo)).map (· + lo)

/-- Numeric value of a digit string. -/
def digitsToNat (ds : Str) : Nat :=
  ds.foldl (fun n c => n * 10 + (c.toNat - 48)) 0

/-- A JS number as an exact decimal fraction `num / den`, `den` a positive
power of ten, not necessarily reduced.  Two `JSNum`s denote the same JS
number exactly when they are numerically equal (`numEq`). -/
structure JSNum where
  num : Int
  den : Nat
deriving DecidableEq, Repr

/-- Whole numbers. -/
instance (n : Nat) : OfNat JSNum n := ⟨⟨(n : Int), 1⟩⟩

/-- Numeric equality of two JS numbers (`===`, and identity of the derived
object property key). -/
def JSNum.numEq (a b : JSNum) : Bool := a.num * (b.den : Int) == b.num * (a.den : Int)

/-- Numeric order on JS numbers (denominators are positive). -/
def JSNum.le (a b : JSNum) : Bool := decide (a.num * (b.den : Int) ≤ b.num * (a.den : Int))

/-- Negation (the optional leading minus sign). -/
def JSNum.neg (a : JSNum) : JSNum := ⟨-a.num, a.den⟩

/-- Multiplication by `10 ^ k` (a positive decimal exponent). -/
def JSNum.mulPow10 (a : JSNum) (k : Nat) : JSNum := ⟨a.num * (10 ^ k : Nat), a.den⟩

/-- Division by `10 ^ k` (a negative decimal exponent). -/
def JSNum.divPow10 (a : JSNum) (k : Nat) : JSNum := ⟨a.num, a.den * 10 ^ k⟩

/-- JS `parseFloat`: skip leading whitespace, optional sign, then the longest
prefix of the form `digits [. digits] [e|E [sign] digits]`; `none` (= `NaN`)
when no digit is found before the exponent.  (`Infinity` literals are not
modelled; no theorem below feeds one in.) -/
def jsParseFloat (s0 : Str) : Option JSNum :=
  let s := s0.dropWhile isWs
  let (isNeg, s) : Bool × Str :=
    match s with
    | '-' :: r => (true, r)
    | '+' :: r => (false, r)
    | _ => (false, s)
  let intD := s.takeWhile Char.isDigit
  let s1 := s.dropWhile Char.isDigit
  let (fracD, s2) : Str × Str :=
    match s1 with
    | '.' :: r => (r.takeWhile Char.isDigit, r.dropWhile Char.isDigit)
    | _ => ([], s1)
  if intD = [] ∧ fracD = [] then none
  else
    let mant : JSNum := ⟨(digitsToNat (intD ++ fracD) : Int), 10 ^ fracD.length⟩
    let withExp : JSNum :=
      match s2 with
      | 'e' :: r | 'E' :: r =>
        let (esgn, r') : Bool × Str :=
          match r with
          | '-' :: r' => (false, r')
          | '+' :: r' => (true, r')
          | _ => (true, r)
        let eD := r'.takeWhile Char.isDigit
        if eD = [] then mant
        else if esgn then mant.mulPow10 (digitsToNat eD)
        else mant.divPow10 (digitsToNat eD)
      | _ => mant
    some (if isNeg then withExp.neg else withExp)

/-- JS `x || 1` where `x` is the result of a `parseFloat`: `NaN` (`none`)
and `0` are falsy. -/
def jsOr1 (x : Option JSNum) : JSNum :=
  match x with
  | none => 1
  | some v => if v.num = 0 then 1 else v

/-- Digit characters of a natural number, most significant first. -/
def natToChars (n : Nat) : Str := Nat.toDigits 10 n

/-- Fraction digits of `r / d` (with `0 ≤ r < d`), one decimal digit per
step until the remainder vanishes; `d` steps always suffice for the
terminating decimals this code produces. -/
def fracDigits : Nat → Nat → Nat → Str
  | 0, _, _ => []
  | _ + 1, 0, _ => []
  | fuel + 1, r, d =>
    let r10 := r * 10
    Char.ofNat (48 + r10 / d) :: fracDigits fuel (r10 % d) d

/-- JS `String(x)` for the finite decimal numbers this code handles: the
canonical decimal rendering (an unreduced `num / den` renders the same as
its reduced form — the fraction loop stops when the remainder vanishes, so
no trailing zeros appear). -/
def jsNumToChars (q : JSNum) : Str :=
  let sign : Str := if q.num < 0 then ['-'] else []
  let n := q.num.natAbs
  let d := q.den
  if n % d = 0 then sign ++ natToChars (n / d)
  else sign ++ natToChars (n / d) ++ '.' :: fracDigits d (n % d) d

/-- Stable insertion of `a` into a list sorted by `le`: `a` lands after the
elements it compares equal to, as in an ECMAScript stable sort. -/
def insertSorted (le : α → α → Bool) (a : α) : List α → List α
  | [] => [a]
  | b :: bs => if le b a then b :: insertSorted le a bs else a :: b :: bs

/-- JS `array.sort(cmp)` (stable since ES2019) for a comparator `cmp` given
here as its induced `le`. -/
def sortJS (le : α → α → Bool) (l : List α) : List α :=
  l.foldl (fun acc a => insertSorted le a acc) []

/-- Occurrences of a (non-empty) pattern inside a string, counted at every
start position. -/
def countSubstr (s pat : Str) : Nat :=
  ((List.range (s.length + 1)).filter
      (fun i => decide ((s.drop i).take pat.length = pat))).length

/-! ## First implementation (src/services/rangeEngine.js, first copy) -/

namespace RE

/-- `RANKS`, Ace high. -/
def RANKS : List Char := ['A', 'K', 'Q', 'J', 'T', '9', '8', '7', '6', '5', '4', '3', '2']

/-- `SUITS`. -/
def SUITS : List Char := ['h', 'd', 'c', 's']

/-- `TOTAL_COMBOS`. -/
def TOTAL_COMBOS : Nat := 1326

/-- `RANKS.indexOf(x)` where `x` may be `undefined` (an out-of-range
character read). -/
def rankIndex (c : Option Char) : Int :=
  match c with
  | none => -1
  | some c => indexOfAux RANKS c

/-- `RANKS[i]` as the string it contributes to a concatenation: the rank
character in range, the text `undefined` outside (JS concatenates the
word). -/
def rankAt (i : Int) : Str :=
  if 0 ≤ i ∧ i < 13 then [RANKS.getD i.toNat 'A'] else str "undefined"

/-- A single rank character (or `undefined`) as the string it contributes
to a concatenation. -/
def optCharStr (c : Option Char) : Str :=
  match c with
  | some c => [c]
  | none => str "undefined"

/-- One cell of the grid object built by `createRangeGrid` (first copy):
the JS object is keyed by `key`, and `Object.values` enumerates the cells
in insertion order, so the whole grid is embedded as the insertion-ordered
list of its cells. -/
structure Cell where
  key : Str
  rank1 : Char
  rank2 : Char
  type : Str
  combos : Nat
  selected : Bool
  weight : JSNum
  row : Nat
  col : Nat
deriving DecidableEq, Repr

/-- The cell `createRangeGrid` builds for row `i`, column `j`. -/
def mkCell (i j : Nat) : Cell :=
  let rank1 := RANKS.getD i 'A'
  let rank2 := RANKS.getD j 'A'
  if i = j then
    { key := [rank1, rank2], rank1 := rank2, rank2 := rank1, type := str "pair",
      combos := 6, selected := false, weight := 0, row := i, col := j }
  else if i < j then
    { key := [rank1, rank2, 's'], rank1 := rank1, rank2 := rank2, type := str "suited",
      combos := 4, selected := false, weight := 0, row := i, col := j }
  else
    { key := [rank2, rank1, 'o'], rank1 := rank2, rank2 := rank1, type := str "offsuit",
      combos := 12, selected := false, weight := 0, row := i, col := j }

/-- `createRangeGrid` (first copy): 13×13 cells in insertion order. -/
def createRangeGrid : List Cell :=
  (List.range 13).bind fun i => (List.range 13).map fun j => mkCell i j

/-- `expandShorthand` (first copy). -/
def expandShorthand (hand : Str) : List Str :=
  let combos : List Str :=
    if hand.length == 2 || hand.length == 3 then
      let rank1 := getC hand 0
      let rank2 := getC hand 1
      let suited : Option Bool :=
        if hand.length = 3 then some (getC hand 2 = 's') else none
      if rank1 = rank2 then
        (natRange 0 4).bind fun i => (natRange (i + 1) 4).map fun j =>
          [rank1, SUITS.getD i ' ', rank2, SUITS.getD j ' ']
      else if suited = some true then
        SUITS.map fun s => [rank1, s, rank2, s]
      else if suited = some false then
        SUITS.bind fun s1 => (SUITS.filter (fun s2 => s2 ≠ s1)).map fun s2 =>
          [rank1, s1, rank2, s2]
      else
        SUITS.bind fun s1 => SUITS.filterMap fun s2 =>
          if rank1 = rank2 then
            if s2 ≤ s1 then none else some [rank1, s1, rank2, s2]
          else some [rank1, s1, rank2, s2]
    else []
  combos

/-- `expandRangeNotation` (first copy): dash ranges like `TT-77`,
`ATs-A6s`; silently empty on anything else. -/
def expandRangeNotation (range : Str) : List Str :=
  let parts := splitOnC '-' range
  if parts.length ≠ 2 then []
  else
    let start := trimC (parts.getD 0 [])
    let endT := trimC (parts.getD 1 [])
    let startRank1 := nth start 0
    let startRank2 := nth start 1
    let endRank1 := nth endT 0
    let endRank2 := nth endT 1
    let startIdx1 := rankIndex startRank1
    let startIdx2 := rankIndex startRank2
    let endIdx1 := rankIndex endRank1
    let endIdx2 := rankIndex endRank2
    if startRank1 = startRank2 ∧ endRank1 = endRank2 then
      (intRangeAsc (min startIdx1 endIdx1) (max startIdx1 endIdx1)).map fun i =>
        rankAt i ++ rankAt i
    else if startRank1 = endRank1 then
      let suited : Str :=
        if strEndsWith start 's' then ['s']
        else if strEndsWith start 'o' then ['o'] else []
      (intRangeAsc (min startIdx2 endIdx2) (max startIdx2 endIdx2)).map fun i =>
        optCharStr startRank1 ++ rankAt i ++ suited
    else []

/-- `expandPlusNotation` (first copy). -/
def expandPlusNotation (hand : Str) : List Str :=
  let rank1 := nth hand 0
  let rank2 := nth hand 1
  let suited : Str := if hand.length > 2 then [getC hand 2] else []
  let idx1 := rankIndex rank1
  let idx2 := rankIndex rank2
  if rank1 = rank2 then
    (intRangeAsc 0 idx1).map fun i => rankAt i ++ rankAt i
  else
    (intRangeAsc (idx1 + 1) idx2).map fun i => optCharStr rank1 ++ rankAt i ++ suited

/-- `normalizeHandNotation` (first copy). -/
def normalizeHandNotation (hand : Str) : Str :=
  if hand = [] ∨ hand.length < 2 then hand
  else
    let rank1 := jsToUpper (getC hand 0)
    let rank2 := jsToUpper (getC hand 1)
    let suffix : Str := if hand.length > 2 then [jsToLower (getC hand 2)] else []
    let idx1 := indexOfAux RANKS rank1
    let idx2 := indexOfAux RANKS rank2
    if rank1 = rank2 then [rank1, rank2]
    else if idx1 < idx2 then [rank1, rank2] ++ suffix
    else [rank2, rank1] ++ suffix

/-- The grid mutation `grid[h].selected = true; grid[h].weight = w`,
performed only when `grid[h]` exists (cell keys are unique, so updating
every matching cell of the list is the same mutation; with no match the
grid is unchanged, as in the source's `if (grid[h])` guard). -/
def setHand (g : List Cell) (h : Str) (w : JSNum) : List Cell :=
  g.map fun c => if c.key = h then { c with selected := true, weight := w } else c

/-- The body of the `for (let hand of hands)` loop of `parseRangeNotation`
(first copy): strip the optional `:<weight>` suffix, then apply dash, plus
or single-hand handling. -/
def parseToken (grid : List Cell) (hand0 : Str) : List Cell :=
  let hw : Str × JSNum :=
    if hasC ':' hand0 then
      let parts := splitOnC ':' hand0
      (parts.getD 0 [], jsOr1 (jsParseFloat (parts.getD 1 [])))
    else (hand0, 1)
  let hand := hw.1
  let weight := hw.2
  if hasC '-' hand then
    (expandRangeNotation hand).foldl (fun g h => setHand g h weight) grid
  else if strEndsWith hand '+' then
    (expandPlusNotation hand.dropLast).foldl (fun g h => setHand g h weight) grid
  else
    setHand grid (normalizeHandNotation hand) weight

/-- The reset `hand.selected = false; hand.weight = 0` applied to one cell. -/
def resetCell (c : Cell) : Cell := { c with selected := false, weight := 0 }

/-- `parseRangeNotation` (first copy).  A `null`/absent grid argument is
`none`. -/
def parseRangeNotation (rangeText : Str) (gridArg : Option (List Cell)) : List Cell :=
  let grid0 := match gridArg with | none => createRangeGrid | some g => g
  let grid := grid0.map resetCell
  if rangeText = [] ∨ trimC rangeText = [] then grid
  else
    let hands := ((splitOnC ',' rangeText).map trimC).filter (· ≠ [])
    hands.foldl parseToken grid

/-- The token `gridToRangeNotation` emits for one selected cell:
`key:weight` when the weight is truthy and ≠ 1, otherwise the bare key. -/
def cellToken (c : Cell) : Str :=
  if c.weight.num ≠ 0 ∧ JSNum.numEq c.weight 1 = false then
    c.key ++ ':' :: jsNumToChars c.weight
  else c.key

/-- The sort key of the comparator in `gridToRangeNotation`. -/
def sortKeyVal (t : Str) : Int :=
  let handPart := (splitOnC ':' t).getD 0 []
  rankIndex (nth handPart 0) * 13 + rankIndex (nth handPart 1)

/-- `gridToRangeNotation` (first copy): selected cells, sorted by the rank
comparator, joined with commas. -/
def gridToRangeNotation (grid : List Cell) : Str :=
  let selectedHands := (grid.filter (·.selected)).map cellToken
  joinSep [','] (sortJS (fun a b => sortKeyVal a ≤ sortKeyVal b) selectedHands)

/-- `gridToFlopzillaFormat` (first copy). -/
def gridToFlopzillaFormat (grid : List Cell) : Str :=
  joinSep (str ", ") ((grid.filter (·.selected)).map (·.key))

/-- `gridToGTOwFormat` (first copy). -/
def gridToGTOwFormat (grid : List Cell) : Str :=
  joinSep [','] ((grid.filter (·.selected)).map cellToken)

/-- `convertRangeFormat` (first copy): parse to a fresh grid, then export
to the target format; any unrecognized `toFormat` falls through to the
standard notation.  `fromFormat` is never read. -/
def convertRangeFormat (rangeText fromFmt toFmt : Str) : Str :=
  let _ := fromFmt
  let grid := parseRangeNotation rangeText none
  if toFmt = str "flopzilla" then gridToFlopzillaFormat grid
  else if toFmt = str "gtow" ∨ toFmt = str "pio" then gridToGTOwFormat grid
  else gridToRangeNotation grid

end RE

/-! ## Second implementation (src/services/rangeEngine.js, second copy) -/

namespace RE2

/-- `RANKS` (second copy; same table). -/
def RANKS : List Char := RE.RANKS

/-- `SUITS` (second copy; same table). -/
def SUITS : List Char := RE.SUITS

/-- One cell of the 13×13 nested-array grid of the second copy. -/
structure Cell2 where
  hand : Str
  type : Str
  combos : Nat
  selected : Bool
  weight : JSNum
deriving DecidableEq, Repr

/-- The cell the second `createRangeGrid` builds at row `i`, column `j`. -/
def mkCell2 (i j : Nat) : Cell2 :=
  let rank1 := RANKS.getD i 'A'
  let rank2 := RANKS.getD j 'A'
  if i = j then
    { hand := [rank1, rank2], type := str "pair", combos := 6,
      selected := false, weight := 0 }
  else if i < j then
    { hand := [rank1, rank2, 's'], type := str "suited", combos := 4,
      selected := false, weight := 0 }
  else
    { hand := [rank2, rank1, 'o'], type := str "offsuit", combos := 12,
      selected := false, weight := 0 }

/-- `createRangeGrid` (second copy): a 13×13 nested array. -/
def createRangeGrid : List (List Cell2) :=
  (List.range 13).map fun i => (List.range 13).map fun j => mkCell2 i j

/-- Replace the element at one index of a list (in-place JS array write). -/
def modifyNth (f : α → α) : Nat → List α → List α
  | _, [] => []
  | 0, a :: as => f a :: as
  | n + 1, a :: as => a :: modifyNth f n as

/-- The mutation `grid[r][c].selected = true; grid[r][c].weight = 1`. -/
def selectRC (g : List (List Cell2)) (r c : Nat) : List (List Cell2) :=
  modifyNth (modifyNth (fun cell => { cell with selected := true, weight := 1 }) c) r g

/-- `expandShorthand` (second copy): validates the ranks, expands to 6, 4,
12 or 16 combos. -/
def expandShorthand (hand : Str) : List Str :=
  if hand = [] ∨ hand.length < 2 then []
  else
    let rank1 := jsToUpper (getC hand 0)
    let rank2 := jsToUpper (getC hand 1)
    let modifier : Option Char :=
      if hand.length > 2 then some (jsToLower (getC hand 2)) else none
    if ¬ (RANKS.contains rank1 ∧ RANKS.contains rank2) then []
    else if rank1 = rank2 then
      (natRange 0 4).bind fun i => (natRange (i + 1) 4).map fun j =>
        [rank1, SUITS.getD i ' ', rank2, SUITS.getD j ' ']
    else if modifier = some 's' then
      SUITS.map fun s => [rank1, s, rank2, s]
    else if modifier = some 'o' then
      SUITS.bind fun s1 => (SUITS.filter (fun s2 => s2 ≠ s1)).map fun s2 =>
        [rank1, s1, rank2, s2]
    else
      SUITS.bind fun s1 => SUITS.map fun s2 => [rank1, s1, rank2, s2]

/-- `markHandInGrid` (second copy): silently returns the grid unchanged on
short hands and unrecognized ranks. -/
def markHandInGrid (grid : List (List Cell2)) (hand : Str) : List (List Cell2) :=
  if hand = [] ∨ hand.length < 2 then grid
  else
    let rank1 := jsToUpper (getC hand 0)
    let rank2 := jsToUpper (getC hand 1)
    let modifier : Option Char :=
      if hand.length > 2 then some (jsToLower (getC hand 2)) else none
    let i := indexOfAux RANKS rank1
    let j := indexOfAux RANKS rank2
    if i = -1 ∨ j = -1 then grid
    else if i = j then selectRC grid i.toNat j.toNat
    else if modifier = some 's' then
      selectRC grid (min i j).toNat (max i j).toNat
    else if modifier = some 'o' then
      selectRC grid (max i j).toNat (min i j).toNat
    else
      selectRC (selectRC grid (min i j).toNat (max i j).toNat)
        (max i j).toNat (min i j).toNat

/-- `expandRangeDash` (second copy): pair ranges, and non-pair ranges
spanned over the second rank of the start token (skipping the start's own
high-rank index), with the start token's modifier. -/
def expandRangeDash (range : Str) : List Str :=
  match splitOnC '-' range with
  | s :: e :: _ =>
    if s = [] ∨ e = [] then []
    else
      let rank1Start := jsToUpper (getC s 0)
      let rank2Start := jsToUpper (getC s 1)
      let rank1End := jsToUpper (getC e 0)
      let rank2End := jsToUpper (getC e 1)
      let modifier : Str := if s.length > 2 then [jsToLower (getC s 2)] else []
      let idx1 := indexOfAux RANKS rank1Start
      let idx2Start := indexOfAux RANKS rank2Start
      let idx2End := indexOfAux RANKS rank2End
      if rank1Start = rank2Start ∧ rank1End = rank2End then
        let startPair := indexOfAux RANKS rank1Start
        let endPair := indexOfAux RANKS rank1End
        (intRangeAsc (min startPair endPair) (max startPair endPair)).map fun i =>
          RE.rankAt i ++ RE.rankAt i
      else
        (intRangeAsc (min idx2Start idx2End) (max idx2Start idx2End)).filterMap fun i =>
          if i ≠ idx1 then some ([rank1Start] ++ RE.rankAt i ++ modifier) else none
  | _ => []

/-- Insertion into the `Map` of `gtowToFlopzilla`: a repeated key keeps its
first position (the stored value is always `true`). -/
def insertKey (m : List Str) (k : Str) : List Str :=
  if m.contains k then m else m ++ [k]

/-- `gtowToFlopzilla` (second copy): specific combos to shorthand, keeping
first-insertion order, deduplicated by the `Map`. -/
def gtowToFlopzilla (range : Str) : Str :=
  if range = [] ∨ trimC range = [] then []
  else
    let hands := (splitOnC ',' range).map trimC
    let m := hands.foldl (fun m hand =>
      if hand.length < 4 then insertKey m hand
      else
        let rank1 := jsToUpper (getC hand 0)
        let suit1 := jsToLower (getC hand 1)
        let rank2 := jsToUpper (getC hand 2)
        let suit2 := jsToLower (getC hand 3)
        if ¬ (RANKS.contains rank1 ∧ RANKS.contains rank2) then m
        else if rank1 = rank2 then insertKey m [rank1, rank2]
        else
          let idx1 := indexOfAux RANKS rank1
          let idx2 := indexOfAux RANKS rank2
          let highRank := if idx1 < idx2 then rank1 else rank2
          let lowRank := if idx1 < idx2 then rank2 else rank1
          if suit1 = suit2 then insertKey m [highRank, lowRank, 's']
          else insertKey m [highRank, lowRank, 'o']) []
    joinSep [','] m

/-- `flopzillaToGtow` (second copy): expand every shorthand token to its
specific combos. -/
def flopzillaToGtow (range : Str) : Str :=
  if range = [] ∨ trimC range = [] then []
  else
    joinSep [','] (((splitOnC ',' range).map trimC).bind expandShorthand)

/-- `convertRangeFormat` (second copy): identity on equal formats, the two
specific conversions, and the input returned unchanged on any other format
pair. -/
def convertRangeFormat (range fromFmt toFmt : Str) : Str :=
  if range = [] ∨ trimC range = [] then []
  else if fromFmt = toFmt then range
  else if fromFmt = str "gtow" ∧ toFmt = str "flopzilla" then gtowToFlopzilla range
  else if fromFmt = str "flopzilla" ∧ toFmt = str "gtow" then flopzillaToGtow range
  else range

end RE2

/-! ## RangeFormatConverter (src/services/RangeFormatConverter.js) -/

namespace FC

/-- The rank class `[2-9TJQKA]` of the Format 1 hand regex. -/
def isRankF1 (c : Char) : Bool :=
  ('2' ≤ c && c ≤ '9') || c = 'T' || c = 'J' || c = 'Q' || c = 'K' || c = 'A'

/-- The suit class `[cdhs]` of the Format 1 hand regex. -/
def isSuitF1 (c : Char) : Bool := c = 'c' || c = 'd' || c = 'h' || c = 's'

/-- One attempt to match `([2-9TJQKA][cdhs][2-9TJQKA][cdhs]):(\d+\.?\d*)`
at the start of `s`: on success the two capture groups and the rest of the
input after the match (greedy digits, optional dot, greedy digits — no
backtracking is ever needed for this pattern). -/
def matchHandWeight (s : Str) : Option (Str × Str × Str) :=
  match s with
  | r1 :: s1 :: r2 :: s2 :: ':' :: rest =>
    if isRankF1 r1 && isSuitF1 s1 && isRankF1 r2 && isSuitF1 s2 then
      let ds := rest.takeWhile Char.isDigit
      if ds = [] then none
      else
        let rest1 := rest.dropWhile Char.isDigit
        match rest1 with
        | '.' :: r =>
          some ([r1, s1, r2, s2], ds ++ '.' :: r.takeWhile Char.isDigit,
            r.dropWhile Char.isDigit)
        | _ => some ([r1, s1, r2, s2], ds, rest1)
    else none
  | _ => none

/-- The repeated `handRegex.exec` loop of `convertFormat1ToFormat2`: all
matches left to right, resuming after each match.  Fuel is the input
length; every step consumes at least one character. -/
def scanF1Aux : Nat → Str → List (Str × Str)
  | 0, _ => []
  | _ + 1, [] => []
  | fuel + 1, c :: rest =>
    match matchHandWeight (c :: rest) with
    | some (h, w, rest') => (h, w) :: scanF1Aux fuel rest'
    | none => scanF1Aux fuel rest

/-- All `(hand, weightStr)` matches of the Format 1 regex in a text. -/
def scanF1 (s : Str) : List (Str × Str) := scanF1Aux s.length s

/-- The three hand-type buckets kept per weight. -/
structure Buckets where
  pairs : List Str
  suited : List Str
  offsuit : List Str
deriving DecidableEq, Repr

/-- The empty bucket record `{ pairs: [], suited: [], offsuit: [] }`. -/
def emptyBuckets : Buckets := { pairs := [], suited := [], offsuit := [] }

/-- Which bucket a hand type names. -/
inductive HType | pairs | suited | offsuit
deriving DecidableEq, Repr

/-- `hands[weight][handType].push(standardHand)`. -/
def pushBucket (b : Buckets) (t : HType) (h : Str) : Buckets :=
  match t with
  | .pairs => { b with pairs := b.pairs ++ [h] }
  | .suited => { b with suited := b.suited ++ [h] }
  | .offsuit => { b with offsuit := b.offsuit ++ [h] }

/-- The rank table `'23456789TJQKA'` of the converter. -/
def ranksF1 : Str := str "23456789TJQKA"

/-- Hand type and standardized shorthand of one matched 4-character combo:
equal ranks give a pair, a shared suit gives Suited, otherwise Offsuit,
with the higher rank written first. -/
def classifyF1 (hand : Str) : HType × Str :=
  let c10 := getC hand 0
  let c11 := getC hand 1
  let c20 := getC hand 2
  let c21 := getC hand 3
  if c10 = c20 then (.pairs, [c10, c20])
  else
    let isSuited := c11 = c21
    let q : Char := if isSuited then 's' else 'o'
    let rank1 := indexOfAux ranksF1 c10
    let rank2 := indexOfAux ranksF1 c20
    let t : HType := if isSuited then .suited else .offsuit
    if rank1 ≥ rank2 then (t, [c10, c20, q]) else (t, [c20, c10, q])

/-- Update the weight-keyed object `hands`: push into an existing weight's
buckets, or append a fresh entry (insertion order preserved). -/
def assocPush (acc : List (JSNum × Buckets)) (w : JSNum) (t : HType) (h : Str) :
    List (JSNum × Buckets) :=
  if acc.any (fun e => JSNum.numEq e.1 w) then
    acc.map fun e => if JSNum.numEq e.1 w then (e.1, pushBucket e.2 t h) else e
  else acc ++ [(w, pushBucket emptyBuckets t h)]

/-- The grouping phase of `convertFormat1ToFormat2`. -/
def groupHands (ms : List (Str × Str)) : List (JSNum × Buckets) :=
  ms.foldl (fun acc m =>
    let weight := (jsParseFloat m.2).getD 0
    let th := classifyF1 m.1
    assocPush acc weight th.1 th.2) []

/-- Whether a numeric property key is an ECMAScript array index (such keys
are enumerated first, in ascending order). -/
def isArrayIndexKey (q : JSNum) : Bool :=
  q.num.natAbs % q.den == 0 && decide (0 ≤ q.num)
    && decide (q.num / (q.den : Int) < 4294967295)

/-- `Object.keys` enumeration order over the number-keyed `hands` object:
array-index-like keys ascending first, then the rest in insertion order. -/
def orderKeys (l : List (JSNum × Buckets)) : List (JSNum × Buckets) :=
  sortJS (fun a b => JSNum.le a.1 b.1) (l.filter (fun e => isArrayIndexKey e.1))
    ++ l.filter (fun e => ¬ isArrayIndexKey e.1)

/-- `areConsecutive`. -/
def areConsecutive (h1 h2 : Str) : Bool :=
  if h1.length = 2 ∧ h2.length = 2 then
    indexOfAux ranksF1 (getC h1 0) - indexOfAux ranksF1 (getC h2 0) = 1
  else if h1.length = 3 ∧ h2.length = 3 then
    if getC h1 2 ≠ getC h2 2 then false
    else if getC h1 0 = getC h2 0 then
      indexOfAux ranksF1 (getC h1 1) - indexOfAux ranksF1 (getC h2 1) = 1
    else false
  else false

/-- The comparator value of `compressRange`'s sort. -/
def cmpHands (a b : Str) : Int :=
  if a.length = 2 ∧ b.length = 2 then
    indexOfAux ranksF1 (getC b 0) - indexOfAux ranksF1 (getC a 0)
  else if getC a 0 ≠ getC b 0 then
    indexOfAux ranksF1 (getC b 0) - indexOfAux ranksF1 (getC a 0)
  else
    indexOfAux ranksF1 (getC b 1) - indexOfAux ranksF1 (getC a 1)

/-- One step of `compressRange`'s scan: the state is
`(result, rangeStart, prevHand)`. -/
def crStep (st : List Str × Option Str × Option Str) (hand : Str) :
    List Str × Option Str × Option Str :=
  match st.2.1, st.2.2 with
  | none, _ => (st.1, some hand, some hand)
  | some rs, some pv =>
    if areConsecutive pv hand then (st.1, some rs, some hand)
    else if rs = pv then (st.1 ++ [rs], some hand, some hand)
    else (st.1 ++ [rs ++ '-' :: pv], some hand, some hand)
  | some rs, none => (st.1, some rs, some hand)

/-- `compressRange`: sort, then merge runs of consecutive hands into dash
ranges. -/
def compressRange (hands : List Str) : List Str :=
  if hands = [] then []
  else
    let sorted := sortJS (fun a b => cmpHands a b ≤ 0) hands
    let st := sorted.foldl crStep ([], none, none)
    match st.2.1, st.2.2 with
    | some rs, some pv => if rs = pv then st.1 ++ [rs] else st.1 ++ [rs ++ '-' :: pv]
    | some rs, none => st.1 ++ [rs]
    | none, _ => st.1

/-- `convertFormat1ToFormat2`: scan the Format 1 text, group by weight and
hand type, compress each bucket, and emit one `[w]…[/w]` section per
weight. -/
def convertFormat1ToFormat2 (format1Text : Str) : Str :=
  let hands := groupHands (scanF1 format1Text)
  (orderKeys hands).foldl (fun acc wb =>
    let w := wb.1
    let b := wb.2
    let allHandsInWeight :=
      (if b.pairs ≠ [] then compressRange b.pairs else [])
        ++ (if b.suited ≠ [] then compressRange b.suited else [])
        ++ (if b.offsuit ≠ [] then compressRange b.offsuit else [])
    if allHandsInWeight ≠ [] then
      acc ++ '[' :: jsNumToChars w ++ ']' :: joinSep (str ", ") allHandsInWeight
        ++ '[' :: '/' :: jsNumToChars w ++ [']', '\n']
    else acc) []

end FC

/-! ## Observables and spec-side constructions -/

/-- The keys of the selected cells of a grid, in grid order: the "set of
selected hands" a grid represents. -/
def selectedKeys (g : List RE.Cell) : List Str :=
  (g.filter (·.selected)).map (·.key)

/-- The 169 hand keys of the grid, in insertion order. -/
def allKeys : List Str := RE.createRangeGrid.map (·.key)

/-- The grid obtained from a fresh grid by selecting an arbitrary subset of
the 169 hands, each selected hand with weight 1.0. -/
def mkSelGrid (sel : Str → Bool) : List RE.Cell :=
  RE.createRangeGrid.map fun c =>
    if sel c.key then { c with selected := true, weight := 1 } else c

/-- A grid whose per-hand selection and weight state is given by an
arbitrary assignment `f` (the structural fields are those of the fresh
grid). -/
def overlayStates (f : Str → Bool × JSNum) : List RE.Cell :=
  RE.createRangeGrid.map fun c =>
    { c with selected := (f c.key).1, weight := (f c.key).2 }

/-- The rank character at a grid index. -/
def rankOf (i : Fin 13) : Char := RE.RANKS.getD i.val 'A'

/-- Characters that can occur in a numeric weight literal. -/
def floatChar (c : Char) : Bool :=
  c.isDigit || c = '.' || c = '+' || c = '-' || c = 'e' || c = 'E'

/-! ## General lemmas about the string helpers -/

theorem hasC_false_iff (c : Char) (s : Str) : hasC c s = false ↔ c ∉ s := by
  induction s with
  | nil => simp [hasC]
  | cons a as ih =>
    simp only [hasC, Bool.or_eq_false_iff, decide_eq_false_iff_not, ih, List.mem_cons]
    constructor
    · rintro ⟨h1, h2⟩ h
      rcases h with h | h
      · exact h1 h.symm
      · exact h2 h
    · intro h
      exact ⟨fun hh => h (Or.inl hh.symm), fun hh => h (Or.inr hh)⟩

theorem splitOnC_ne_nil (sep : Char) (s : Str) : splitOnC sep s ≠ [] := by
  cases s with
  | nil => simp [splitOnC]
  | cons c rest =>
    simp only [splitOnC]
    split <;> simp

theorem splitOnC_of_not_has (sep : Char) (s : Str) (h : hasC sep s = false) :
    splitOnC sep s = [s] := by
  induction s with
  | nil => rfl
  | cons c rest ih =>
    simp only [hasC, Bool.or_eq_false_iff, decide_eq_false_iff_not] at h
    simp only [splitOnC, ih h.2, if_neg h.1]
    rfl

theorem splitOnC_append_sep (sep : Char) (a b : Str) (h : hasC sep a = false) :
    splitOnC sep (a ++ sep :: b) = a :: splitOnC sep b := by
  induction a with
  | nil => simp [splitOnC]
  | cons c cs ih =>
    simp only [hasC, Bool.or_eq_false_iff, decide_eq_false_iff_not] at h
    have hr := ih h.2
    simp only [List.cons_append, splitOnC, List.append_eq, hr, if_neg h.1]
    rfl

theorem splitOnC_joinSep (sep : Char) (ts : List Str) (hne : ts ≠ [])
    (h : ∀ t ∈ ts, hasC sep t = false) :
    splitOnC sep (joinSep [sep] ts) = ts := by
  induction ts with
  | nil => exact absurd rfl hne
  | cons t rest ih =>
    cases rest with
    | nil => exact splitOnC_of_not_has sep t (h t (by simp))
    | cons t2 rest2 =>
      have : joinSep [sep] (t :: t2 :: rest2) = t ++ sep :: joinSep [sep] (t2 :: rest2) := by
        simp [joinSep]
      rw [this, splitOnC_append_sep sep t _ (h t (by simp)),
        ih (by simp) (fun x hx => h x (by simp [hx]))]

theorem dropWhile_isWs_eq_self (s : Str) (h : ∀ c ∈ s, isWs c = false) :
    s.dropWhile isWs = s := by
  cases s with
  | nil => rfl
  | cons c rest => simp [List.dropWhile_cons, h c (by simp)]

theorem trimC_eq_self (s : Str) (h : ∀ c ∈ s, isWs c = false) : trimC s = s := by
  unfold trimC
  rw [dropWhile_isWs_eq_self s h,
    dropWhile_isWs_eq_self s.reverse (fun c hc => h c (List.mem_reverse.mp hc)),
    List.reverse_reverse]

theorem mem_joinSep (sep : Str) (ts : List Str) (c : Char) (hc : c ∈ joinSep sep ts) :
    c ∈ sep ∨ ∃ t ∈ ts, c ∈ t := by
  induction ts with
  | nil => simp [joinSep] at hc
  | cons t rest ih =>
    cases rest with
    | nil => exact Or.inr ⟨t, by simp, by simpa [joinSep] using hc⟩
    | cons t2 rest2 =>
      have : joinSep sep (t :: t2 :: rest2) = t ++ sep ++ joinSep sep (t2 :: rest2) := by
        simp [joinSep]
      rw [this] at hc
      rcases List.mem_append.mp hc with hc | hc
      · rcases List.mem_append.mp hc with hc | hc
        · exact Or.inr ⟨t, by simp, hc⟩
        · exact Or.inl hc
      · rcases ih hc with hs | ⟨u, hu, hcu⟩
        · exact Or.inl hs
        · exact Or.inr ⟨u, by simp [hu], hcu⟩

theorem joinSep_ne_nil (sep : Str) (t : Str) (ts : List Str) (ht : t ≠ []) :
    joinSep sep (t :: ts) ≠ [] := by
  cases ts with
  | nil => simpa [joinSep] using ht
  | cons t2 rest => simp [joinSep, ht]

theorem insertSorted_perm (le : α → α → Bool) (a : α) (l : List α) :
    List.Perm (insertSorted le a l) (a :: l) := by
  induction l with
  | nil => rfl
  | cons b bs ih =>
    simp only [insertSorted]
    split
    · exact (ih.cons b).trans (List.Perm.swap a b bs)
    · rfl

theorem sortJS_perm (le : α → α → Bool) (l : List α) : List.Perm (sortJS le l) l := by
  have key : ∀ (l acc : List α),
      List.Perm (l.foldl (fun acc a => insertSorted le a acc) acc) (acc ++ l) := by
    intro l
    induction l with
    | nil => simp
    | cons a as ih =>
      intro acc
      have h1 := ih (insertSorted le a acc)
      have h2 : List.Perm (insertSorted le a acc ++ as) ((a :: acc) ++ as) :=
        (insertSorted_perm le a acc).append_right as
      have h3 : List.Perm ((a :: acc) ++ as) (acc ++ a :: as) :=
        List.perm_middle.symm
      exact (h1.trans h2).trans h3
  simpa using key l []

/-! ## Lemmas about the first engine's grid and parser -/

set_option maxRecDepth 20000 in
theorem keyFacts : ∀ t ∈ allKeys, t ≠ [] ∧ hasC ',' t = false ∧ hasC ':' t = false
    ∧ hasC '-' t = false ∧ strEndsWith t '+' = false ∧ (∀ c ∈ t, isWs c = false)
    ∧ RE.normalizeHandNotation t = t := by decide

set_option maxRecDepth 20000 in
theorem createRangeGrid_clean :
    ∀ c ∈ RE.createRangeGrid, c.selected = false ∧ c.weight = 0 := by decide

set_option maxRecDepth 20000 in
theorem allKeys_nodup : allKeys.Nodup := by decide

theorem resetCell_clean (c : RE.Cell) (h1 : c.selected = false) (h2 : c.weight = 0) :
    RE.resetCell c = c := by
  cases c
  simp_all [RE.resetCell]

theorem reset_createRangeGrid : RE.createRangeGrid.map RE.resetCell = RE.createRangeGrid := by
  have h : ∀ c ∈ RE.createRangeGrid, RE.resetCell c = id c := fun c hc =>
    resetCell_clean c (createRangeGrid_clean c hc).1 (createRangeGrid_clean c hc).2
  rw [List.map_congr_left h, List.map_id]

theorem parseToken_key (g : List RE.Cell) (t : Str) (ht : t ∈ allKeys) :
    RE.parseToken g t = RE.setHand g t 1 := by
  obtain ⟨-, -, h3, h4, h5, -, h7⟩ := keyFacts t ht
  simp [RE.parseToken, h3, h4, h5, h7]

theorem foldl_congr_mem {f g : β → α → β} (l : List α) (b : β)
    (h : ∀ x ∈ l, ∀ acc, f acc x = g acc x) : l.foldl f b = l.foldl g b := by
  induction l generalizing b with
  | nil => rfl
  | cons a as ih =>
    simp only [List.foldl_cons]
    rw [h a (by simp) b]
    exact ih _ (fun x hx acc => h x (by simp [hx]) acc)

theorem foldl_setHand (w : JSNum) (ts : List Str) (g : List RE.Cell) :
    ts.foldl (fun g t => RE.setHand g t w) g
      = g.map fun c => if c.key ∈ ts then { c with selected := true, weight := w } else c := by
  induction ts generalizing g with
  | nil => simp
  | cons t ts ih =>
    rw [List.foldl_cons, ih]
    unfold RE.setHand
    rw [List.map_map]
    apply List.map_congr_left
    intro c _
    cases c with
    | mk k r1 r2 ty cb se we ro co =>
      by_cases h1 : k = t <;> by_cases h2 : k ∈ ts <;>
        simp_all [Function.comp, List.mem_cons]

theorem selectedKeys_updIf (p : Str → Prop) [DecidablePred p] (w : JSNum) (l : List RE.Cell)
    (hl : ∀ c ∈ l, c.selected = false) :
    selectedKeys (l.map fun c => if p c.key then { c with selected := true, weight := w } else c)
      = (l.map (·.key)).filter fun k => decide (p k) := by
  induction l with
  | nil => rfl
  | cons c cs ih =>
    have hc := (hl c (by simp)).symm
    have ihr := ih (fun x hx => hl x (by simp [hx]))
    by_cases hp : p c.key
    · simp only [selectedKeys, List.map_cons, if_pos hp] at *
      rw [List.filter_cons_of_pos (by simp), List.map_cons,
        List.filter_cons_of_pos (by simp [hp])]
      simpa [selectedKeys] using ihr
    · simp only [selectedKeys, List.map_cons, if_neg hp] at *
      rw [List.filter_cons_of_neg (by simp [← hc]), List.filter_cons_of_neg (by simp [hp])]
      exact ihr

theorem serialize_filter (sel : Str → Bool) (l : List RE.Cell)
    (hl : ∀ c ∈ l, c.selected = false) :
    ((l.map fun c => if sel c.key then { c with selected := true, weight := 1 } else c).filter
        (·.selected)).map RE.cellToken
      = (l.map (·.key)).filter sel := by
  induction l with
  | nil => rfl
  | cons c cs ih =>
    have hc := (hl c (by simp)).symm
    have ihr := ih (fun x hx => hl x (by simp [hx]))
    by_cases hp : sel c.key
    · simp only [List.map_cons, if_pos hp]
      rw [List.filter_cons_of_pos (by simp), List.filter_cons_of_pos (by simpa using hp),
        List.map_cons]
      rw [ihr]
      have hcell : ∀ c' : RE.Cell, c'.weight = 1 → RE.cellToken c' = c'.key := by
        intro c' hw
        simp [RE.cellToken, hw]
        decide
      rw [hcell _ rfl]
    · simp only [List.map_cons, if_neg hp]
      rw [List.filter_cons_of_neg (by simp [← hc]), List.filter_cons_of_neg (by simpa using hp)]
      exact ihr

theorem parse_joined (ts : List Str) (hne : ts ≠ []) (hks : ∀ t ∈ ts, t ∈ allKeys) :
    RE.parseRangeNotation (joinSep [','] ts) none
      = RE.createRangeGrid.map fun c =>
          if c.key ∈ ts then { c with selected := true, weight := 1 } else c := by
  have hfacts : ∀ t ∈ ts, t ≠ [] ∧ hasC ',' t = false ∧ (∀ c ∈ t, isWs c = false) := by
    intro t ht
    obtain ⟨f1, f2, -, -, -, f6, -⟩ := keyFacts t (hks t ht)
    exact ⟨f1, f2, f6⟩
  obtain ⟨t0, ts0, rfl⟩ : ∃ t0 ts0, ts = t0 :: ts0 := by
    cases ts with
    | nil => exact absurd rfl hne
    | cons a l => exact ⟨a, l, rfl⟩
  have hjne : joinSep [','] (t0 :: ts0) ≠ [] :=
    joinSep_ne_nil _ _ _ (hfacts t0 (by simp)).1
  have hws : ∀ c ∈ joinSep [','] (t0 :: ts0), isWs c = false := by
    intro c hc
    rcases mem_joinSep _ _ _ hc with h | ⟨t, ht, hct⟩
    · have : c = ',' := by simpa using h
      subst this; decide
    · exact (hfacts t ht).2.2 c hct
  have htrim : trimC (joinSep [','] (t0 :: ts0)) = joinSep [','] (t0 :: ts0) :=
    trimC_eq_self _ hws
  have hsplit : splitOnC ',' (joinSep [','] (t0 :: ts0)) = t0 :: ts0 :=
    splitOnC_joinSep ',' _ (by simp) (fun t ht => (hfacts t ht).2.1)
  have hmap : (t0 :: ts0).map trimC = t0 :: ts0 :=
    List.map_congr_left (fun t ht => trimC_eq_self t (hfacts t ht).2.2) |>.trans
      (List.map_id _)
  have hfil : (t0 :: ts0).filter (fun t => decide (t ≠ [])) = t0 :: ts0 :=
    List.filter_eq_self.mpr (fun t ht => by simp [(hfacts t ht).1])
  simp only [RE.parseRangeNotation]
  rw [reset_createRangeGrid, if_neg (by simp [hjne, htrim]), hsplit, hmap, hfil]
  rw [foldl_congr_mem (g := fun g t => RE.setHand g t 1) _ _
    (fun t ht acc => parseToken_key acc t (hks t ht))]
  exact foldl_setHand 1 _ _

theorem gridToRangeNotation_mkSelGrid (sel : Str → Bool) :
    RE.gridToRangeNotation (mkSelGrid sel)
      = joinSep [','] (sortJS (fun a b => decide (RE.sortKeyVal a ≤ RE.sortKeyVal b))
          (allKeys.filter sel)) := by
  unfold RE.gridToRangeNotation mkSelGrid
  rw [serialize_filter sel _ (fun c hc => (createRangeGrid_clean c hc).1)]
  rfl

set_option maxRecDepth 20000 in
theorem selectedKeys_fresh : selectedKeys RE.createRangeGrid = [] := by decide

/-- C1: for every grid built by selecting an arbitrary subset of the 169
hands each with weight 1.0, serializing with `gridToRangeNotation` and
parsing the result back with `parseRangeNotation` reproduces exactly the
same set of selected hands. -/
theorem claim1_parse_roundtrip (sel : Str → Bool) :
    selectedKeys (RE.parseRangeNotation (RE.gridToRangeNotation (mkSelGrid sel)) none)
      = selectedKeys (mkSelGrid sel) := by
  have hclean : ∀ c ∈ RE.createRangeGrid, c.selected = false :=
    fun c hc => (createRangeGrid_clean c hc).1
  have hfun : (fun k => decide (sel k = true)) = sel := by
    funext k; cases h : sel k <;> simp [h]
  have key1 : selectedKeys (mkSelGrid sel) = allKeys.filter sel := by
    have h := selectedKeys_updIf (p := fun k => sel k = true) 1 RE.createRangeGrid hclean
    rw [hfun] at h
    exact h
  rw [gridToRangeNotation_mkSelGrid]
  by_cases hks : allKeys.filter sel = []
  · rw [hks]
    have : sortJS (fun a b => decide (RE.sortKeyVal a ≤ RE.sortKeyVal b)) ([] : List Str)
        = [] := rfl
    rw [this]
    have hparse : RE.parseRangeNotation (joinSep [','] ([] : List Str)) none
        = RE.createRangeGrid := by
      simp only [RE.parseRangeNotation, joinSep]
      rw [reset_createRangeGrid]
      simp
    rw [hparse, selectedKeys_fresh, key1, hks]
  · set tokens := sortJS (fun a b => decide (RE.sortKeyVal a ≤ RE.sortKeyVal b))
      (allKeys.filter sel) with htokens
    have hperm : List.Perm tokens (allKeys.filter sel) := by
      rw [htokens]
      exact sortJS_perm _ _
    have htne : tokens ≠ [] := by
      intro h
      rw [h] at hperm
      exact hks hperm.symm.eq_nil
    have hmem : ∀ t ∈ tokens, t ∈ allKeys := by
      intro t ht
      exact List.mem_of_mem_filter (hperm.mem_iff.mp ht)
    rw [parse_joined tokens htne hmem]
    have key2 := selectedKeys_updIf (p := fun k => k ∈ tokens) 1 RE.createRangeGrid hclean
    rw [key2, key1]
    show allKeys.filter (fun k => decide (k ∈ tokens)) = allKeys.filter sel
    apply List.filter_congr
    intro k hk
    have hiff : k ∈ tokens ↔ k ∈ allKeys.filter sel := hperm.mem_iff
    cases h : sel k with
    | true =>
      have : k ∈ tokens := hiff.mpr (List.mem_filter.mpr ⟨hk, h⟩)
      simp [this]
    | false =>
      have : k ∉ tokens := by
        intro hkt
        have := (List.mem_filter.mp (hiff.mp hkt)).2
        rw [h] at this
        exact Bool.false_ne_true this
      simp [this]

/-! ## Claim theorems -/

set_option maxRecDepth 20000 in
/-- C2: every grid produced by `createRangeGrid` (both copies) has exactly
169 cells — 13 pair cells with 6 combos, 78 suited cells with 4 combos,
78 offsuit cells with 12 combos — and the combo counts sum to 1326. -/
theorem claim2_grid_invariants :
    RE.createRangeGrid.length = 169
    ∧ (RE.createRangeGrid.filter fun c => c.type == str "pair" && c.combos == 6).length = 13
    ∧ (RE.createRangeGrid.filter fun c => c.type == str "suited" && c.combos == 4).length = 78
    ∧ (RE.createRangeGrid.filter fun c => c.type == str "offsuit" && c.combos == 12).length = 78
    ∧ (RE.createRangeGrid.map (·.combos)).sum = 1326
    ∧ RE2.createRangeGrid.join.length = 169
    ∧ (RE2.createRangeGrid.join.filter fun c => c.type == str "pair" && c.combos == 6).length = 13
    ∧ (RE2.createRangeGrid.join.filter fun c => c.type == str "suited" && c.combos == 4).length = 78
    ∧ (RE2.createRangeGrid.join.filter fun c => c.type == str "offsuit" && c.combos == 12).length = 78
    ∧ (RE2.createRangeGrid.join.map (·.combos)).sum = 1326 := by decide

/-- C10: the first parser's result is independent of the prior selection
and weight state of the supplied grid — it resets every cell's `selected`
flag and `weight` before applying tokens, so the outcome depends only on
the input string. -/
theorem claim10_parse_state_independent (f1 f2 : Str → Bool × JSNum) (s : Str) :
    RE.parseRangeNotation s (some (overlayStates f1))
      = RE.parseRangeNotation s (some (overlayStates f2)) := by
  have key : ∀ f : Str → Bool × JSNum,
      (overlayStates f).map RE.resetCell = RE.createRangeGrid.map RE.resetCell := by
    intro f
    unfold overlayStates
    rw [List.map_map]
    apply List.map_congr_left
    intro c _
    cases c
    rfl
  simp only [RE.parseRangeNotation]
  rw [key f1, key f2]

set_option maxRecDepth 20000 in
/-- C5 counterexample: with `fromFormat = toFormat = "gtow"` (a supported
format), the first `convertRangeFormat` does not return its input
unchanged — it re-parses and re-serializes, so the input `"ZZ"` comes back
as the empty string. -/
theorem claim5_counterexample :
    RE.convertRangeFormat (str "ZZ") (str "gtow") (str "gtow") ≠ str "ZZ" := by decide

/-- C5 (amended): only the second `convertRangeFormat` has a same-format
shortcut, and it returns the input unchanged whenever the two format names
are equal except that an empty or whitespace-only input is normalized to
the empty string; the first implementation instead re-parses and
re-serializes even when the formats coincide. -/
theorem claim5_same_format_identity (x fmt : Str) :
    RE2.convertRangeFormat x fmt fmt = if x = [] ∨ trimC x = [] then [] else x := by
  by_cases h : x = [] ∨ trimC x = []
  · simp [RE2.convertRangeFormat, h]
  · simp [RE2.convertRangeFormat, h]

set_option maxRecDepth 20000 in
/-- C8 counterexample: for the unsupported format names `"foo"`/`"bar"`,
the second `convertRangeFormat` silently returns the input unconverted
instead of failing with `UnsupportedFormat`. -/
theorem claim8_counterexample :
    RE2.convertRangeFormat (str "AA") (str "foo") (str "bar") = str "AA" := by decide

/-- C8 (amended): an unsupported format name is silently defaulted, never
reported: the first implementation serializes to the standard notation for
any `toFormat` outside `flopzilla`/`gtow`/`pio`, and the second returns the
input unconverted for any format pair other than the two supported
conversions. -/
theorem claim8_unknown_format_fallback :
    (∀ x fromFmt toFmt : Str, toFmt ≠ str "flopzilla" → toFmt ≠ str "gtow" →
      toFmt ≠ str "pio" →
      RE.convertRangeFormat x fromFmt toFmt
        = RE.gridToRangeNotation (RE.parseRangeNotation x none))
    ∧ (∀ x fromFmt toFmt : Str, fromFmt ≠ toFmt →
        ¬(fromFmt = str "gtow" ∧ toFmt = str "flopzilla") →
        ¬(fromFmt = str "flopzilla" ∧ toFmt = str "gtow") →
        RE2.convertRangeFormat x fromFmt toFmt
          = if x = [] ∨ trimC x = [] then [] else x) := by
  constructor
  · intro x f t h1 h2 h3
    simp [RE.convertRangeFormat, h1, h2, h3]
  · intro x f t h1 h2 h3
    by_cases hx : x = [] ∨ trimC x = []
    · simp [RE2.convertRangeFormat, hx]
    · simp [RE2.convertRangeFormat, hx, h1, h2, h3]

/-- C8 witness: the fallback equations at one concrete unsupported format
pair. -/
theorem claim8_witness :
    RE.convertRangeFormat (str "AA") (str "one") (str "two")
      = RE.gridToRangeNotation (RE.parseRangeNotation (str "AA") none) :=
  claim8_unknown_format_fallback.1 (str "AA") (str "one") (str "two")
    (by decide) (by decide) (by decide)

set_option maxRecDepth 20000 in
/-- C4 counterexample: a range string with an unrecognized token is not
rejected: `parseRangeNotation` silently skips `"ZZ"` and still applies the
valid token `"AA"` — no all-or-nothing abort occurs, and the resulting
grid is returned as a success value. -/
theorem claim4_counterexample :
    selectedKeys (RE.parseRangeNotation (str "ZZ,AA") none) = [str "AA"]
    ∧ RE2.markHandInGrid RE2.createRangeGrid (str "ZZ") = RE2.createRangeGrid := by decide

set_option maxRecDepth 20000 in
/-- C3 counterexample: the weight suffix `:5` lies outside `[0,1]` yet the
parse succeeds and applies it verbatim — no `InvalidWeight` failure — and
a non-numeric suffix `:abc` silently defaults the weight to 1 instead of
failing. -/
theorem claim3_counterexample :
    ((RE.parseRangeNotation (str "AA:5") none).filter (·.selected)).map
        (fun c => (c.key, c.weight)) = [(str "AA", (5 : JSNum))]
    ∧ ((RE.parseRangeNotation (str "AA:abc") none).filter (·.selected)).map
        (fun c => (c.key, c.weight)) = [(str "AA", (1 : JSNum))] := by decide

set_option maxRecDepth 20000 in
/-- C7 counterexample: a dash range with mismatched high ranks is silently
dropped (the other tokens still apply), and one with mismatched suitedness
qualifiers is expanded using the start token's qualifier — no
`InvalidRangeExpression` failure exists in either implementation. -/
theorem claim7_counterexample :
    RE.expandRangeNotation (str "AKs-QJs") = []
    ∧ selectedKeys (RE.parseRangeNotation (str "AKs-QJs,AA") none) = [str "AA"]
    ∧ RE.expandRangeNotation (str "ATs-A6o")
        = [str "ATs", str "A9s", str "A8s", str "A7s", str "A6s"]
    ∧ RE2.expandRangeDash (str "AKs-QJs") = [str "AKs", str "AQs", str "AJs"] := by decide

theorem hasC_true_iff (c : Char) (s : Str) : hasC c s = true ↔ c ∈ s := by
  rw [← not_iff_not]
  simp only [Bool.not_eq_true, hasC_false_iff]

theorem digit_props (c : Char) (h : c.isDigit = true) :
    isWs c = false ∧ c ≠ ',' ∧ c ≠ ':' := by
  simp only [Char.isDigit, Bool.and_eq_true, decide_eq_true_eq] at h
  refine ⟨?_, ?_, ?_⟩
  · simp only [isWs, Bool.or_eq_false_iff, decide_eq_false_iff_not]
    refine ⟨⟨⟨?_, ?_⟩, ?_⟩, ?_⟩ <;> rintro rfl <;> revert h <;> decide
  · rintro rfl; revert h; decide
  · rintro rfl; revert h; decide

theorem floatChar_props (c : Char) (h : floatChar c = true) :
    isWs c = false ∧ c ≠ ',' ∧ c ≠ ':' := by
  simp only [floatChar, Bool.or_eq_true, decide_eq_true_eq] at h
  rcases h with ((((h | rfl) | rfl) | rfl) | rfl) | rfl
  · exact digit_props c h
  all_goals exact ⟨by decide, by decide, by decide⟩

theorem parse_single (t : Str) (hne : t ≠ []) (hc : hasC ',' t = false)
    (hws : ∀ c ∈ t, isWs c = false) :
    RE.parseRangeNotation t none = RE.parseToken RE.createRangeGrid t := by
  simp only [RE.parseRangeNotation]
  rw [reset_createRangeGrid, if_neg (by simp [hne, trimC_eq_self t hws]),
    splitOnC_of_not_has ',' t hc]
  simp [trimC_eq_self t hws, hne]

theorem setHand_absent (g : List RE.Cell) (h : Str) (w : JSNum)
    (hab : ∀ c ∈ g, c.key ≠ h) : RE.setHand g h w = g := by
  unfold RE.setHand
  have hcongr : ∀ c ∈ g,
      (if c.key = h then ({ c with selected := true, weight := w } : RE.Cell) else c)
        = id c := by
    intro c hc
    rw [if_neg (hab c hc)]
    rfl
  rw [List.map_congr_left hcongr, List.map_id]

/-- C3 (amended): the parser never fails on a weight suffix.  For a token
`key:w` with a numeric-looking suffix `w`, the weight actually applied is
`parseFloat(w) || 1`: a failed parse (`NaN`) or a parsed value of `0`
falls back to weight 1, and any other parsed value — inside `[0,1]` or
not — is applied verbatim; a missing suffix defaults the weight to 1. -/
theorem claim3_weight_suffix_applied (k w : Str) (hk : k ∈ allKeys)
    (hw : ∀ c ∈ w, floatChar c = true) :
    (RE.parseRangeNotation (k ++ ':' :: w) none
        = RE.setHand RE.createRangeGrid k (jsOr1 (jsParseFloat w)))
    ∧ (jsParseFloat w = none →
        RE.parseRangeNotation (k ++ ':' :: w) none = RE.setHand RE.createRangeGrid k 1)
    ∧ (∀ v : JSNum, jsParseFloat w = some v → v.num ≠ 0 →
        RE.parseRangeNotation (k ++ ':' :: w) none = RE.setHand RE.createRangeGrid k v)
    ∧ RE.parseRangeNotation k none = RE.setHand RE.createRangeGrid k 1 := by
  obtain ⟨f1, f2, f3, f4, f5, f6, f7⟩ := keyFacts k hk
  have hwp : ∀ c ∈ w, isWs c = false ∧ c ≠ ',' ∧ c ≠ ':' :=
    fun c hc => floatChar_props c (hw c hc)
  have main : RE.parseRangeNotation (k ++ ':' :: w) none
      = RE.setHand RE.createRangeGrid k (jsOr1 (jsParseFloat w)) := by
    have htne : k ++ ':' :: w ≠ [] := by simp
    have htc : hasC ',' (k ++ ':' :: w) = false := by
      rw [hasC_false_iff]
      intro hmem
      rcases List.mem_append.mp hmem with h | h
      · exact (hasC_false_iff ',' k).mp f2 h
      · rcases List.mem_cons.mp h with h | h
        · exact absurd h (by decide)
        · exact (hwp ',' h).2.1 rfl
    have htw : ∀ c ∈ k ++ ':' :: w, isWs c = false := by
      intro c hcm
      rcases List.mem_append.mp hcm with h | h
      · exact f6 c h
      · rcases List.mem_cons.mp h with rfl | h
        · decide
        · exact (hwp c h).1
    rw [parse_single _ htne htc htw]
    have hhc : hasC ':' (k ++ ':' :: w) = true :=
      (hasC_true_iff ':' _).mpr (by simp)
    have hwc : hasC ':' w = false := by
      rw [hasC_false_iff]
      intro hmem
      exact (hwp ':' hmem).2.2 rfl
    have hsplit : splitOnC ':' (k ++ ':' :: w) = [k, w] := by
      rw [splitOnC_append_sep ':' k w f3, splitOnC_of_not_has ':' w hwc]
    simp only [RE.parseToken, hhc, if_true, hsplit]
    simp [f4, f5, f7]
  refine ⟨main, ?_, ?_, ?_⟩
  · intro hnone
    rw [main, hnone]
    rfl
  · intro v hv hv0
    rw [main, hv]
    simp [jsOr1, hv0]
  · rw [parse_single k f1 f2 f6, parseToken_key _ _ hk]

/-- C3 witness: the out-of-range weight 5 is applied verbatim. -/
theorem claim3_witness :
    RE.parseRangeNotation (str "AA" ++ ':' :: str "5") none
      = RE.setHand RE.createRangeGrid (str "AA") (5 : JSNum) :=
  (claim3_weight_suffix_applied (str "AA") (str "5") (by decide) (by decide)).2.2.1
    5 (by decide) (by decide)

theorem filter_nodup_singleton (k : Str) (l : List Str) (hk : k ∈ l) (hnd : l.Nodup) :
    l.filter (fun x => decide (x = k)) = [k] := by
  induction l with
  | nil => cases hk
  | cons a as ih =>
    have hnda := List.nodup_cons.mp hnd
    rcases List.mem_cons.mp hk with rfl | hmem
    · rw [List.filter_cons_of_pos (by simp)]
      have hnil : as.filter (fun x => decide (x = k)) = [] := by
        rw [List.filter_eq_nil_iff]
        intro x hx
        simp only [decide_eq_true_eq]
        intro hxk
        exact hnda.1 (hxk ▸ hx)
      rw [hnil]
    · have hak : a ≠ k := fun h => hnda.1 (h ▸ hmem)
      rw [List.filter_cons_of_neg (by simp [hak]), ih hmem hnda.2]

/-- C4 (amended): parsing is not all-or-nothing and never fails: a token
whose normalized form is not one of the 169 hand keys is silently skipped
(it changes nothing), and the remaining valid tokens are applied, the
resulting grid being returned as an ordinary success value. -/
theorem claim4_invalid_token_ignored (k junk : Str) (hk : k ∈ allKeys)
    (h1 : hasC ':' junk = false) (h2 : hasC '-' junk = false)
    (h3 : hasC ',' junk = false) (h4 : strEndsWith junk '+' = false)
    (h5 : ∀ c ∈ junk, isWs c = false) (h6 : RE.normalizeHandNotation junk ∉ allKeys) :
    RE.parseRangeNotation (junk ++ ',' :: k) none = RE.parseRangeNotation k none
    ∧ selectedKeys (RE.parseRangeNotation (junk ++ ',' :: k) none) = [k] := by
  obtain ⟨f1, f2, f3, f4, f5, f6, f7⟩ := keyFacts k hk
  have hr : RE.parseRangeNotation k none = RE.setHand RE.createRangeGrid k 1 := by
    rw [parse_single k f1 f2 f6, parseToken_key _ _ hk]
  have habsent : ∀ c ∈ RE.createRangeGrid, c.key ≠ RE.normalizeHandNotation junk := by
    intro c hc heq
    exact h6 (heq ▸ List.mem_map_of_mem (·.key) hc)
  have hjunktok : RE.parseToken RE.createRangeGrid junk = RE.createRangeGrid := by
    simp [RE.parseToken, h1, h2, h4]
    exact setHand_absent _ _ _ habsent
  have hl : RE.parseRangeNotation (junk ++ ',' :: k) none
      = RE.setHand RE.createRangeGrid k 1 := by
    simp only [RE.parseRangeNotation]
    have htw : ∀ c ∈ junk ++ ',' :: k, isWs c = false := by
      intro c hcm
      rcases List.mem_append.mp hcm with h | h
      · exact h5 c h
      · rcases List.mem_cons.mp h with rfl | h
        · decide
        · exact f6 c h
    rw [reset_createRangeGrid, if_neg (by simp [trimC_eq_self _ htw]),
      splitOnC_append_sep ',' junk k h3, splitOnC_of_not_has ',' k f2]
    by_cases hj : junk = []
    · subst hj
      simp [show trimC ([] : Str) = [] from rfl, trimC_eq_self k f6, f1,
        parseToken_key _ _ hk]
    · simp only [List.map_cons, List.map_nil, trimC_eq_self junk h5,
        trimC_eq_self k f6]
      rw [List.filter_cons_of_pos (by simp [hj]), List.filter_cons_of_pos (by simp [f1])]
      simp only [List.filter_nil, List.foldl_cons, List.foldl_nil, hjunktok]
      rw [parseToken_key _ _ hk]
  refine ⟨hl.trans hr.symm, ?_⟩
  rw [hl]
  have hupd := selectedKeys_updIf (p := fun key => key = k) 1 RE.createRangeGrid
    (fun c hc => (createRangeGrid_clean c hc).1)
  rw [show RE.setHand RE.createRangeGrid k 1
      = RE.createRangeGrid.map fun c =>
          if c.key = k then { c with selected := true, weight := 1 } else c from rfl]
  rw [hupd]
  exact filter_nodup_singleton k allKeys hk allKeys_nodup

/-- C4 witness: the junk token `ZZ` is ignored and `AKs` still applies. -/
theorem claim4_witness :
    RE.parseRangeNotation (str "ZZ" ++ ',' :: str "AKs") none
      = RE.parseRangeNotation (str "AKs") none :=
  (claim4_invalid_token_ignored (str "AKs") (str "ZZ") (by decide) (by decide)
    (by decide) (by decide) (by decide) (by decide) (by decide)).1

theorem cmpHands_self (h : Str) : FC.cmpHands h h = 0 := by
  unfold FC.cmpHands
  by_cases hl2 : h.length = 2 <;> simp [hl2]

theorem areConsecutive_self (h : Str) : FC.areConsecutive h h = false := by
  unfold FC.areConsecutive
  by_cases hl2 : h.length = 2
  · simp [hl2]
  · by_cases hl3 : h.length = 3 <;> simp [hl2, hl3]

theorem insertSorted_replicate (le : α → α → Bool) (a : α) (hle : le a a = true) :
    ∀ n, insertSorted le a (List.replicate n a) = List.replicate (n + 1) a := by
  intro n
  induction n with
  | zero => rfl
  | succ m ih =>
    simp only [List.replicate_succ, insertSorted, hle, if_true, ih]

theorem sortJS_replicate (le : α → α → Bool) (a : α) (hle : le a a = true) (n : Nat) :
    sortJS le (List.replicate n a) = List.replicate n a := by
  have key : ∀ m k, (List.replicate m a).foldl (fun acc x => insertSorted le x acc)
      (List.replicate k a) = List.replicate (k + m) a := by
    intro m
    induction m with
    | zero => simp
    | succ m' ih =>
      intro k
      simp only [List.replicate_succ, List.foldl_cons]
      rw [insertSorted_replicate le a hle k, ih (k + 1)]
      congr 1
      omega
  simpa using key n 0

theorem crStep_replicate (h : Str) (res : List Str) (m : Nat) :
    (List.replicate m h).foldl FC.crStep (res, some h, some h)
      = (res ++ List.replicate m h, some h, some h) := by
  induction m generalizing res with
  | zero => simp
  | succ m' ih =>
    simp only [List.replicate_succ, List.foldl_cons]
    have hstep : FC.crStep (res, some h, some h) h = (res ++ [h], some h, some h) := by
      simp [FC.crStep, areConsecutive_self]
    rw [hstep, ih (res ++ [h])]
    simp [List.replicate_succ]

theorem compressRange_replicate (h : Str) (n : Nat) :
    FC.compressRange (List.replicate n h) = List.replicate n h := by
  cases n with
  | zero => rfl
  | succ m =>
    unfold FC.compressRange
    rw [if_neg (by simp)]
    have hle : (fun a b => decide (FC.cmpHands a b ≤ 0)) h h = true := by
      simp [cmpHands_self]
    rw [sortJS_replicate _ h hle]
    simp only [List.replicate_succ, List.foldl_cons]
    have hfirst : FC.crStep (([], none, none) : List Str × Option Str × Option Str) h
        = ([], some h, some h) := by
      simp [FC.crStep]
    rw [hfirst, crStep_replicate h [] m]
    simp [(List.replicate_succ' m h).symm, List.replicate_succ]

set_option maxRecDepth 20000 in
/-- C9 counterexample: two raw combos of one weight bucket mapping to the
same shorthand `AKs` produce `AKs` twice in the bucket's output — nothing
is deduplicated. -/
theorem claim9_counterexample :
    FC.convertFormat1ToFormat2 (str "AhKh:50,AdKd:50") = str "[50]AKs, AKs[/50]\n"
    ∧ 1 < countSubstr (FC.convertFormat1ToFormat2 (str "AhKh:50,AdKd:50"))
        (str "AKs") := by decide

set_option maxRecDepth 20000 in
/-- C9 (amended): repeated shorthand results within a weight bucket are
not deduplicated: equal hands are never "consecutive", so `compressRange`
returns each duplicate separately (on a bucket of `n` equal hands it
returns all `n`), and the bucket output lists the repeated shorthand once
per raw combo. -/
theorem claim9_no_dedup :
    (∀ (h : Str) (n : Nat), FC.compressRange (List.replicate n h) = List.replicate n h)
    ∧ (∀ h : Str, FC.areConsecutive h h = false)
    ∧ FC.convertFormat1ToFormat2 (str "AhKh:50,AdKd:50") = str "[50]AKs, AKs[/50]\n" :=
  ⟨fun h n => compressRange_replicate h n, areConsecutive_self, by decide⟩

theorem rank_facts : ∀ i : Fin 13,
    rankOf i ≠ '-' ∧ isWs (rankOf i) = false
      ∧ indexOfAux RE.RANKS (rankOf i) = (i.val : Int) := by decide

theorem rankOf_inj : ∀ i j : Fin 13, rankOf i = rankOf j ↔ i = j := by decide

theorem expandRange_mismatch_high (i1 l1 i2 l2 : Fin 13) (q1 q2 : Char)
    (hq1 : q1 = 's' ∨ q1 = 'o') (hq2 : q2 = 's' ∨ q2 = 'o')
    (hne1 : i1 ≠ l1) (hne : i1 ≠ i2) :
    RE.expandRangeNotation
      ([rankOf i1, rankOf l1, q1] ++ '-' :: [rankOf i2, rankOf l2, q2]) = [] := by
  have hd1 := rank_facts i1
  have hd2 := rank_facts l1
  have hd3 := rank_facts i2
  have hd4 := rank_facts l2
  have hqd1 : q1 ≠ '-' := by rcases hq1 with rfl | rfl <;> decide
  have hqd2 : q2 ≠ '-' := by rcases hq2 with rfl | rfl <;> decide
  have hqw1 : isWs q1 = false := by rcases hq1 with rfl | rfl <;> decide
  have hqw2 : isWs q2 = false := by rcases hq2 with rfl | rfl <;> decide
  have hs : hasC '-' [rankOf i1, rankOf l1, q1] = false := by
    simp [hasC, hd1.1, hd2.1, hqd1]
  have he : hasC '-' [rankOf i2, rankOf l2, q2] = false := by
    simp [hasC, hd3.1, hd4.1, hqd2]
  have hsplit := splitOnC_append_sep '-' _ ([rankOf i2, rankOf l2, q2]) hs
  rw [splitOnC_of_not_has '-' _ he] at hsplit
  have ht1 : trimC [rankOf i1, rankOf l1, q1] = [rankOf i1, rankOf l1, q1] := by
    apply trimC_eq_self
    intro c hc
    rcases List.mem_cons.mp hc with rfl | hc
    · exact hd1.2.1
    rcases List.mem_cons.mp hc with rfl | hc
    · exact hd2.2.1
    rcases List.mem_cons.mp hc with rfl | hc
    · exact hqw1
    · cases hc
  have ht2 : trimC [rankOf i2, rankOf l2, q2] = [rankOf i2, rankOf l2, q2] := by
    apply trimC_eq_self
    intro c hc
    rcases List.mem_cons.mp hc with rfl | hc
    · exact hd3.2.1
    rcases List.mem_cons.mp hc with rfl | hc
    · exact hd4.2.1
    rcases List.mem_cons.mp hc with rfl | hc
    · exact hqw2
    · cases hc
  unfold RE.expandRangeNotation
  rw [hsplit]
  simp only [List.length_cons, List.length_nil, List.getD, List.getElem?_cons_zero,
    List.getElem?_cons_succ, Option.getD_some, ht1, ht2]
  rw [if_neg (by decide)]
  rw [if_neg (by simp [ht1, ht2, nth, Option.some.injEq, rankOf_inj, hne1]),
    if_neg (by simp [ht1, ht2, nth, Option.some.injEq, rankOf_inj, hne])]

theorem expandRange_mismatch_high_bare (i1 l1 i2 l2 : Fin 13)
    (hne1 : i1 ≠ l1) (hne : i1 ≠ i2) :
    RE.expandRangeNotation
      ([rankOf i1, rankOf l1] ++ '-' :: [rankOf i2, rankOf l2]) = [] := by
  have hd1 := rank_facts i1
  have hd2 := rank_facts l1
  have hd3 := rank_facts i2
  have hd4 := rank_facts l2
  have hs : hasC '-' [rankOf i1, rankOf l1] = false := by
    simp [hasC, hd1.1, hd2.1]
  have he : hasC '-' [rankOf i2, rankOf l2] = false := by
    simp [hasC, hd3.1, hd4.1]
  have hsplit := splitOnC_append_sep '-' _ ([rankOf i2, rankOf l2]) hs
  rw [splitOnC_of_not_has '-' _ he] at hsplit
  have ht1 : trimC [rankOf i1, rankOf l1] = [rankOf i1, rankOf l1] := by
    apply trimC_eq_self
    intro c hc
    rcases List.mem_cons.mp hc with rfl | hc
    · exact hd1.2.1
    rcases List.mem_cons.mp hc with rfl | hc
    · exact hd2.2.1
    · cases hc
  have ht2 : trimC [rankOf i2, rankOf l2] = [rankOf i2, rankOf l2] := by
    apply trimC_eq_self
    intro c hc
    rcases List.mem_cons.mp hc with rfl | hc
    · exact hd3.2.1
    rcases List.mem_cons.mp hc with rfl | hc
    · exact hd4.2.1
    · cases hc
  unfold RE.expandRangeNotation
  rw [hsplit]
  simp only [List.getD, List.getElem?_cons_zero, List.getElem?_cons_succ,
    Option.getD_some, ht1, ht2]
  rw [if_neg (by simp)]
  rw [if_neg (by simp [ht1, ht2, nth, Option.some.injEq, rankOf_inj, hne1]),
    if_neg (by simp [ht1, ht2, nth, Option.some.injEq, rankOf_inj, hne])]

theorem expandRange_same_high (i l1 l2 : Fin 13) (q2 : Char)
    (hq2 : q2 = 's' ∨ q2 = 'o') (hne1 : i ≠ l1) :
    RE.expandRangeNotation
        ([rankOf i, rankOf l1, 's'] ++ '-' :: [rankOf i, rankOf l2, q2])
      = (intRangeAsc (min (l1.val : Int) (l2.val : Int))
            (max (l1.val : Int) (l2.val : Int))).map
          (fun t => [rankOf i] ++ RE.rankAt t ++ ['s']) := by
  have hd1 := rank_facts i
  have hd2 := rank_facts l1
  have hd4 := rank_facts l2
  have hqd : q2 ≠ '-' := by rcases hq2 with rfl | rfl <;> decide
  have hqw : isWs q2 = false := by rcases hq2 with rfl | rfl <;> decide
  have hs : hasC '-' [rankOf i, rankOf l1, 's'] = false := by
    simp [hasC, hd1.1, hd2.1]
  have he : hasC '-' [rankOf i, rankOf l2, q2] = false := by
    simp [hasC, hd1.1, hd4.1, hqd]
  have hsplit := splitOnC_append_sep '-' _ ([rankOf i, rankOf l2, q2]) hs
  rw [splitOnC_of_not_has '-' _ he] at hsplit
  have ht1 : trimC [rankOf i, rankOf l1, 's'] = [rankOf i, rankOf l1, 's'] := by
    apply trimC_eq_self
    intro c hc
    rcases List.mem_cons.mp hc with rfl | hc
    · exact hd1.2.1
    rcases List.mem_cons.mp hc with rfl | hc
    · exact hd2.2.1
    rcases List.mem_cons.mp hc with rfl | hc
    · decide
    · cases hc
  have ht2 : trimC [rankOf i, rankOf l2, q2] = [rankOf i, rankOf l2, q2] := by
    apply trimC_eq_self
    intro c hc
    rcases List.mem_cons.mp hc with rfl | hc
    · exact hd1.2.1
    rcases List.mem_cons.mp hc with rfl | hc
    · exact hd4.2.1
    rcases List.mem_cons.mp hc with rfl | hc
    · exact hqw
    · cases hc
  unfold RE.expandRangeNotation
  rw [hsplit]
  simp only [List.getD, List.getElem?_cons_zero, List.getElem?_cons_succ,
    Option.getD_some, ht1, ht2]
  rw [if_neg (by simp)]
  rw [if_neg (by simp [ht1, ht2, nth, Option.some.injEq, rankOf_inj, hne1]),
    if_pos (by simp [ht1, ht2, nth])]
  have hends : strEndsWith [rankOf i, rankOf l1, 's'] 's' = true := rfl
  simp [ht1, ht2, nth, RE.rankIndex, hd2.2.2, hd4.2.2, RE.optCharStr, hends]

theorem expandRange_qualifier_from_start (i l1 l2 : Fin 13) (hne1 : i ≠ l1) :
    RE.expandRangeNotation
        ([rankOf i, rankOf l1, 's'] ++ '-' :: [rankOf i, rankOf l2, 'o'])
      = RE.expandRangeNotation
        ([rankOf i, rankOf l1, 's'] ++ '-' :: [rankOf i, rankOf l2, 's']) :=
  (expandRange_same_high i l1 l2 'o' (Or.inr rfl) hne1).trans
    (expandRange_same_high i l1 l2 's' (Or.inl rfl) hne1).symm

set_option maxRecDepth 20000 in
/-- C7 (amended): no dash range fails.  Non-pair endpoints with mismatched
high ranks expand to the empty list, so the token is silently ignored
(with or without suitedness qualifiers); endpoints with mismatched
suitedness qualifiers behave exactly as if the end token carried the start
token's qualifier, expanding the inclusive low-rank span with it; matched
pair-pair and same-high-rank endpoints expand to the inclusive span, as
the concrete instances show (the second implementation's `expandRangeDash`
likewise resolves a qualifier mismatch from the start token). -/
theorem claim7_dash_range_silent :
    (∀ (i1 l1 i2 l2 : Fin 13) (q1 q2 : Char),
        (q1 = 's' ∨ q1 = 'o') → (q2 = 's' ∨ q2 = 'o') → i1 ≠ l1 → i1 ≠ i2 →
        RE.expandRangeNotation
          ([rankOf i1, rankOf l1, q1] ++ '-' :: [rankOf i2, rankOf l2, q2]) = [])
    ∧ (∀ i1 l1 i2 l2 : Fin 13, i1 ≠ l1 → i1 ≠ i2 →
        RE.expandRangeNotation
          ([rankOf i1, rankOf l1] ++ '-' :: [rankOf i2, rankOf l2]) = [])
    ∧ (∀ i l1 l2 : Fin 13, i ≠ l1 →
        RE.expandRangeNotation
            ([rankOf i, rankOf l1, 's'] ++ '-' :: [rankOf i, rankOf l2, 'o'])
          = RE.expandRangeNotation
            ([rankOf i, rankOf l1, 's'] ++ '-' :: [rankOf i, rankOf l2, 's']))
    ∧ RE.expandRangeNotation (str "ATs-A6s")
        = [str "ATs", str "A9s", str "A8s", str "A7s", str "A6s"]
    ∧ RE.expandRangeNotation (str "TT-77") = [str "TT", str "99", str "88", str "77"]
    ∧ RE2.expandRangeDash (str "ATs-A6o")
        = [str "ATs", str "A9s", str "A8s", str "A7s", str "A6s"] :=
  ⟨fun i1 l1 i2 l2 q1 q2 hq1 hq2 h1 h2 =>
      expandRange_mismatch_high i1 l1 i2 l2 q1 q2 hq1 hq2 h1 h2,
   fun i1 l1 i2 l2 h1 h2 => expandRange_mismatch_high_bare i1 l1 i2 l2 h1 h2,
   fun i l1 l2 h => expandRange_qualifier_from_start i l1 l2 h,
   by decide, by decide, by decide⟩

/-- C7 witness: a concrete mismatched-high dash token expands to nothing. -/
theorem claim7_witness :
    RE.expandRangeNotation
      ([rankOf 0, rankOf 1, 's'] ++ '-' :: [rankOf 2, rankOf 3, 's']) = [] :=
  claim7_dash_range_silent.1 0 1 2 3 's' 's' (Or.inl rfl) (Or.inl rfl)
    (by decide) (by decide)

theorem jsToUpper_rank : ∀ i : Fin 13, jsToUpper (rankOf i) = rankOf i := by decide

theorem contains_rank : ∀ i : Fin 13, RE.RANKS.contains (rankOf i) = true := by decide

theorem mem_rank : ∀ i : Fin 13, rankOf i ∈ RE.RANKS := by decide

theorem expand1_unqual (i j : Fin 13) (hne : i ≠ j) :
    (RE.expandShorthand [rankOf i, rankOf j]).length = 16
    ∧ (RE.expandShorthand [rankOf i, rankOf j]).Nodup := by
  have h1 : rankOf i ≠ rankOf j := by simp [rankOf_inj, hne]
  have hexp : RE.expandShorthand [rankOf i, rankOf j]
      = [[rankOf i, 'h', rankOf j, 'h'], [rankOf i, 'h', rankOf j, 'd'],
         [rankOf i, 'h', rankOf j, 'c'], [rankOf i, 'h', rankOf j, 's'],
         [rankOf i, 'd', rankOf j, 'h'], [rankOf i, 'd', rankOf j, 'd'],
         [rankOf i, 'd', rankOf j, 'c'], [rankOf i, 'd', rankOf j, 's'],
         [rankOf i, 'c', rankOf j, 'h'], [rankOf i, 'c', rankOf j, 'd'],
         [rankOf i, 'c', rankOf j, 'c'], [rankOf i, 'c', rankOf j, 's'],
         [rankOf i, 's', rankOf j, 'h'], [rankOf i, 's', rankOf j, 'd'],
         [rankOf i, 's', rankOf j, 'c'], [rankOf i, 's', rankOf j, 's']] := by
    unfold RE.expandShorthand
    simp [getC, nth, h1, RE.SUITS]
  rw [hexp]
  exact ⟨rfl, by simp⟩

theorem expand1_suited (i j : Fin 13) (hne : i ≠ j) :
    (RE.expandShorthand [rankOf i, rankOf j, 's']).length = 4
    ∧ (RE.expandShorthand [rankOf i, rankOf j, 's']).Nodup := by
  have h1 : rankOf i ≠ rankOf j := by simp [rankOf_inj, hne]
  have hexp : RE.expandShorthand [rankOf i, rankOf j, 's']
      = [[rankOf i, 'h', rankOf j, 'h'], [rankOf i, 'd', rankOf j, 'd'],
         [rankOf i, 'c', rankOf j, 'c'], [rankOf i, 's', rankOf j, 's']] := by
    unfold RE.expandShorthand
    simp [getC, nth, h1, RE.SUITS]
  rw [hexp]
  exact ⟨rfl, by simp⟩

theorem expand1_offsuit (i j : Fin 13) (hne : i ≠ j) :
    (RE.expandShorthand [rankOf i, rankOf j, 'o']).length = 12
    ∧ (RE.expandShorthand [rankOf i, rankOf j, 'o']).Nodup := by
  have h1 : rankOf i ≠ rankOf j := by simp [rankOf_inj, hne]
  have hexp : RE.expandShorthand [rankOf i, rankOf j, 'o']
      = [[rankOf i, 'h', rankOf j, 'd'], [rankOf i, 'h', rankOf j, 'c'],
         [rankOf i, 'h', rankOf j, 's'], [rankOf i, 'd', rankOf j, 'h'],
         [rankOf i, 'd', rankOf j, 'c'], [rankOf i, 'd', rankOf j, 's'],
         [rankOf i, 'c', rankOf j, 'h'], [rankOf i, 'c', rankOf j, 'd'],
         [rankOf i, 'c', rankOf j, 's'], [rankOf i, 's', rankOf j, 'h'],
         [rankOf i, 's', rankOf j, 'd'], [rankOf i, 's', rankOf j, 'c']] := by
    unfold RE.expandShorthand
    simp [getC, nth, h1, RE.SUITS]
  rw [hexp]
  exact ⟨rfl, by simp⟩

theorem expand1_pair (i : Fin 13) :
    (RE.expandShorthand [rankOf i, rankOf i]).length = 6
    ∧ (RE.expandShorthand [rankOf i, rankOf i]).Nodup := by
  have hexp : RE.expandShorthand [rankOf i, rankOf i]
      = [[rankOf i, 'h', rankOf i, 'd'], [rankOf i, 'h', rankOf i, 'c'],
         [rankOf i, 'h', rankOf i, 's'], [rankOf i, 'd', rankOf i, 'c'],
         [rankOf i, 'd', rankOf i, 's'], [rankOf i, 'c', rankOf i, 's']] := by
    unfold RE.expandShorthand
    simp [getC, nth, RE.SUITS, natRange]
    rfl
  rw [hexp]
  exact ⟨rfl, by simp⟩

theorem expand2_unqual (i j : Fin 13) (hne : i ≠ j) :
    (RE2.expandShorthand [rankOf i, rankOf j]).length = 16
    ∧ (RE2.expandShorthand [rankOf i, rankOf j]).Nodup := by
  have h1 : rankOf i ≠ rankOf j := by simp [rankOf_inj, hne]
  have hexp : RE2.expandShorthand [rankOf i, rankOf j]
      = [[rankOf i, 'h', rankOf j, 'h'], [rankOf i, 'h', rankOf j, 'd'],
         [rankOf i, 'h', rankOf j, 'c'], [rankOf i, 'h', rankOf j, 's'],
         [rankOf i, 'd', rankOf j, 'h'], [rankOf i, 'd', rankOf j, 'd'],
         [rankOf i, 'd', rankOf j, 'c'], [rankOf i, 'd', rankOf j, 's'],
         [rankOf i, 'c', rankOf j, 'h'], [rankOf i, 'c', rankOf j, 'd'],
         [rankOf i, 'c', rankOf j, 'c'], [rankOf i, 'c', rankOf j, 's'],
         [rankOf i, 's', rankOf j, 'h'], [rankOf i, 's', rankOf j, 'd'],
         [rankOf i, 's', rankOf j, 'c'], [rankOf i, 's', rankOf j, 's']] := by
    unfold RE2.expandShorthand
    simp [getC, nth, h1, jsToUpper_rank, contains_rank, mem_rank, RE2.RANKS, RE2.SUITS, RE.SUITS]
  rw [hexp]
  exact ⟨rfl, by simp⟩

theorem expand2_suited (i j : Fin 13) (hne : i ≠ j) :
    (RE2.expandShorthand [rankOf i, rankOf j, 's']).length = 4 := by
  have h1 : rankOf i ≠ rankOf j := by simp [rankOf_inj, hne]
  have hexp : RE2.expandShorthand [rankOf i, rankOf j, 's']
      = [[rankOf i, 'h', rankOf j, 'h'], [rankOf i, 'd', rankOf j, 'd'],
         [rankOf i, 'c', rankOf j, 'c'], [rankOf i, 's', rankOf j, 's']] := by
    unfold RE2.expandShorthand
    simp [getC, nth, h1, jsToUpper_rank, contains_rank, mem_rank, RE2.RANKS, RE2.SUITS, RE.SUITS,
      jsToLower]
  rw [hexp]
  rfl

theorem expand2_offsuit (i j : Fin 13) (hne : i ≠ j) :
    (RE2.expandShorthand [rankOf i, rankOf j, 'o']).length = 12 := by
  have h1 : rankOf i ≠ rankOf j := by simp [rankOf_inj, hne]
  have hexp : RE2.expandShorthand [rankOf i, rankOf j, 'o']
      = [[rankOf i, 'h', rankOf j, 'd'], [rankOf i, 'h', rankOf j, 'c'],
         [rankOf i, 'h', rankOf j, 's'], [rankOf i, 'd', rankOf j, 'h'],
         [rankOf i, 'd', rankOf j, 'c'], [rankOf i, 'd', rankOf j, 's'],
         [rankOf i, 'c', rankOf j, 'h'], [rankOf i, 'c', rankOf j, 'd'],
         [rankOf i, 'c', rankOf j, 's'], [rankOf i, 's', rankOf j, 'h'],
         [rankOf i, 's', rankOf j, 'd'], [rankOf i, 's', rankOf j, 'c']] := by
    unfold RE2.expandShorthand
    simp [getC, nth, h1, jsToUpper_rank, contains_rank, mem_rank, RE2.RANKS, RE2.SUITS, RE.SUITS,
      jsToLower]
  rw [hexp]
  rfl

theorem expand2_pair (i : Fin 13) :
    (RE2.expandShorthand [rankOf i, rankOf i]).length = 6 := by
  have hexp : RE2.expandShorthand [rankOf i, rankOf i]
      = [[rankOf i, 'h', rankOf i, 'd'], [rankOf i, 'h', rankOf i, 'c'],
         [rankOf i, 'h', rankOf i, 's'], [rankOf i, 'd', rankOf i, 'c'],
         [rankOf i, 'd', rankOf i, 's'], [rankOf i, 'c', rankOf i, 's']] := by
    unfold RE2.expandShorthand
    simp [getC, nth, jsToUpper_rank, contains_rank, mem_rank, RE2.RANKS, RE2.SUITS, RE.SUITS,
      natRange]
    rfl
  rw [hexp]
  rfl

set_option maxRecDepth 20000 in
/-- C6: in both implementations, `expandShorthand` on a two-rank hand with
distinct ranks yields 16 distinct combos with no qualifier, exactly 4 with
the `s` qualifier, exactly 12 with the `o` qualifier, and exactly 6 for a
pair — in the fixed suit-enumeration order of the source (the functions
are pure, so the sequence is deterministic and restartable). -/
theorem claim6_expandShorthand_counts : ∀ i j : Fin 13,
    (i ≠ j →
      (RE.expandShorthand [rankOf i, rankOf j]).length = 16
      ∧ (RE.expandShorthand [rankOf i, rankOf j]).Nodup
      ∧ (RE.expandShorthand [rankOf i, rankOf j, 's']).length = 4
      ∧ (RE.expandShorthand [rankOf i, rankOf j, 's']).Nodup
      ∧ (RE.expandShorthand [rankOf i, rankOf j, 'o']).length = 12
      ∧ (RE.expandShorthand [rankOf i, rankOf j, 'o']).Nodup
      ∧ (RE2.expandShorthand [rankOf i, rankOf j]).length = 16
      ∧ (RE2.expandShorthand [rankOf i, rankOf j]).Nodup
      ∧ (RE2.expandShorthand [rankOf i, rankOf j, 's']).length = 4
      ∧ (RE2.expandShorthand [rankOf i, rankOf j, 'o']).length = 12)
    ∧ (RE.expandShorthand [rankOf i, rankOf i]).length = 6
    ∧ (RE.expandShorthand [rankOf i, rankOf i]).Nodup
    ∧ (RE2.expandShorthand [rankOf i, rankOf i]).length = 6 := by
  intro i j
  refine ⟨fun hne => ?_, (expand1_pair i).1, (expand1_pair i).2, expand2_pair i⟩
  exact ⟨(expand1_unqual i j hne).1, (expand1_unqual i j hne).2,
    (expand1_suited i j hne).1, (expand1_suited i j hne).2,
    (expand1_offsuit i j hne).1, (expand1_offsuit i j hne).2,
    (expand2_unqual i j hne).1, (expand2_unqual i j hne).2,
    expand2_suited i j hne, expand2_offsuit i j hne⟩

/-- C6 witness: the counts at the concrete ranks A and K. -/
theorem claim6_witness :
    (RE.expandShorthand [rankOf 0, rankOf 1]).length = 16
    ∧ (RE.expandShorthand [rankOf 0, rankOf 0]).length = 6 :=
  ⟨((claim6_expandShorthand_counts 0 1).1 (by decide)).1,
   (claim6_expandShorthand_counts 0 0).2.1⟩
